import Mathlib

/-!
Verification of the tile-text rendering core of the `why-crystals` program
(`src/main.rs`): sprite-sheet tile addressing, the screen tile grid, the
rich-text tree and its flattening, the color-key transparency transform,
and the per-frame draw ordering.

The Rust code is shallowly embedded: `u32`/`usize` values become `Nat`
(no arithmetic here comes near the 32-bit range for well-formed sheets
and grids), SDL surfaces become row-major lists of colors, the SDL canvas
becomes a trace of draw events, and `Vec` indexing that would panic out
of bounds becomes `Option`.
-/

namespace WhyCrystals

/-- `sdl2::pixels::Color`: a 4-channel RGBA color, each channel an 8-bit
unsigned integer (modelled as `Nat`; channel values used by the program
are all below 256). -/
structure Color where
  r : Nat
  g : Nat
  b : Nat
  a : Nat
deriving DecidableEq, Repr

/-- `Color::RGB(r, g, b)`: alpha is set to `0xff`. -/
def Color.RGB (r g b : Nat) : Color := ⟨r, g, b, 255⟩

/-- `Color::RGBA(r, g, b, a)`. -/
def Color.RGBA (r g b a : Nat) : Color := ⟨r, g, b, a⟩

/-- `sdl2::rect::Rect::new(x, y, w, h)`. The Rust type stores `x, y` as
`i32` and `w, h` as `u32`; every rectangle built by this program has
nonnegative coordinates, so we use `Nat` throughout. -/
structure Rect where
  x : Nat
  y : Nat
  w : Nat
  h : Nat
deriving DecidableEq, Repr

/-- `map_surface_pixels(surface, f)` (src/main.rs:10-44): converts the
surface to a 4-byte RGBA layout and replaces every pixel color `c` by
`f c`, visiting each pixel once.  A surface is modelled as its row-major
list of pixel colors; the pixel-format conversion and row-pitch handling
are SDL-specific byte bookkeeping with no effect on the per-pixel color
mapping. -/
def map_surface_pixels (surface : List Color) (f : Color → Color) : List Color :=
  surface.map f

/-- The color-key predicate defined inside `CharSpriteSheet::from_filepath`
(src/main.rs:66-75): pure magenta `(255, 0, 255, _)` and pure black
`(0, 0, 0, _)` (any alpha, matched with `..`) become `Color::RGBA(0,0,0,0)`;
every other color is returned unchanged. -/
def pink_and_black_to_transparent (color : Color) : Color :=
  if (color.r = 255 ∧ color.g = 0 ∧ color.b = 255) ∨
      (color.r = 0 ∧ color.g = 0 ∧ color.b = 0) then
    Color.RGBA 0 0 0 0
  else
    color

/-- The key-color condition of `pink_and_black_to_transparent`, named for
use in theorem statements: pure magenta or pure black, any alpha. -/
def isKeyColor (c : Color) : Prop :=
  (c.r = 255 ∧ c.g = 0 ∧ c.b = 255) ∨ (c.r = 0 ∧ c.g = 0 ∧ c.b = 0)

instance (c : Color) : Decidable (isKeyColor c) := by
  unfold isKeyColor; infer_instance

/-- `CharSpriteSheet` (src/main.rs:53-57): a sprite sheet of equally sized
glyph tiles.  The `texture` field is an SDL GPU resource; only its
geometry (`grid_wh` tile counts, `tile_wh` pixel sizes) enters the tile
addressing computation modelled here. -/
structure CharSpriteSheet where
  grid_wh : Nat × Nat
  tile_wh : Nat × Nat
deriving DecidableEq, Repr

/-- `CharSpriteSheet::char_index_to_rect` (src/main.rs:93-97):
`grid_xy = (char_index % grid_wh.0, char_index / grid_wh.1)`, scaled by
the tile size.  Note the row uses `grid_wh.1` (the grid height) as
divisor. -/
def CharSpriteSheet.char_index_to_rect (sheet : CharSpriteSheet) (char_index : Nat) : Rect :=
  let grid_xy := (char_index % sheet.grid_wh.1, char_index / sheet.grid_wh.2)
  let xy := (grid_xy.1 * sheet.tile_wh.1, grid_xy.2 * sheet.tile_wh.2)
  ⟨xy.1, xy.2, sheet.tile_wh.1, sheet.tile_wh.2⟩

/-- `ScreenTile` (src/main.rs:116-120): one grid cell's state. -/
structure ScreenTile where
  sprite : Nat
  fg_color : Color
  bg_color : Color
deriving DecidableEq, Repr

/-- `COLOR_WHITE` (src/main.rs:122): default foreground. -/
def COLOR_WHITE : Color := ⟨180, 220, 200, 255⟩

/-- `COLOR_BG` (src/main.rs:123): default background. -/
def COLOR_BG : Color := ⟨5, 30, 25, 255⟩

/-- `ScreenTile::new` (src/main.rs:126-132). -/
def ScreenTile.new : ScreenTile :=
  { sprite := 0, fg_color := COLOR_WHITE, bg_color := COLOR_BG }

/-- `ScreenTile::from_char` (src/main.rs:134-140): the sprite index is the
character's code point. -/
def ScreenTile.from_char (character : Char) : ScreenTile :=
  { sprite := character.toNat, fg_color := COLOR_WHITE, bg_color := COLOR_BG }

/-- `ScreenGrid` (src/main.rs:143-147): linear tile storage plus grid and
tile geometry. -/
structure ScreenGrid where
  tiles : List ScreenTile
  grid_wh : Nat × Nat
  tile_wh : Nat × Nat
deriving DecidableEq, Repr

/-- `ScreenGrid::new` (src/main.rs:150-155): `grid_wh.0 * grid_wh.1`
default tiles. -/
def ScreenGrid.new (grid_wh tile_wh : Nat × Nat) : ScreenGrid :=
  { tiles := List.replicate (grid_wh.1 * grid_wh.2) ScreenTile.new
    grid_wh := grid_wh
    tile_wh := tile_wh }

/-- `ScreenGrid::tile_index` (src/main.rs:157-159):
`xy.0 * grid_wh.1 + xy.1`, i.e. `x * grid_height + y`. -/
def ScreenGrid.tile_index (grid : ScreenGrid) (xy : Nat × Nat) : Nat :=
  xy.1 * grid.grid_wh.2 + xy.2

/-- `ScreenGrid::tile` (src/main.rs:161-164): `&self.tiles[tile_index]`.
The `Vec` index panics when out of range; this is modelled by `none`. -/
def ScreenGrid.tile (grid : ScreenGrid) (xy : Nat × Nat) : Option ScreenTile :=
  grid.tiles[grid.tile_index xy]?

/-- `*self.tile_mut(xy) = t` (src/main.rs:166-169 plus the assignment at
the call sites): overwrite the record at `tile_index xy`.  The `Vec`
index panics when out of range; this is modelled by `none`. -/
def ScreenGrid.setTile (grid : ScreenGrid) (xy : Nat × Nat) (t : ScreenTile) :
    Option ScreenGrid :=
  if grid.tile_index xy < grid.tiles.length then
    some { grid with tiles := grid.tiles.set (grid.tile_index xy) t }
  else
    none

/-- `ScreenGrid::grid_coords_to_rect` (src/main.rs:171-178). -/
def ScreenGrid.grid_coords_to_rect (grid : ScreenGrid) (xy : Nat × Nat) : Rect :=
  ⟨xy.1 * grid.tile_wh.1, xy.2 * grid.tile_wh.2, grid.tile_wh.1, grid.tile_wh.2⟩

/-- `RichTextModifier` (src/main.rs:204-208). -/
inductive RichTextModifier where
  | FgColor (color : Color)
  | BgColor (color : Color)
deriving DecidableEq, Repr

/-- `RichText` (src/main.rs:210-215): literal text, a color modifier
wrapping one child, or a sequence of children. -/
inductive RichText where
  | Text (string : String)
  | Modifier (modifier : RichTextModifier) (child : RichText)
  | Sequence (vec : List RichText)
deriving Repr

/-- `impl From<T> for RichText` (src/main.rs:217-224). -/
def RichText.fromString (string : String) : RichText :=
  RichText.Text string

/-- `RichText::fg_color` (src/main.rs:227-229). -/
def RichText.fg_color (self : RichText) (color : Color) : RichText :=
  RichText.Modifier (RichTextModifier.FgColor color) self

/-- `RichText::bg_color` (src/main.rs:231-233). -/
def RichText.bg_color (self : RichText) (color : Color) : RichText :=
  RichText.Modifier (RichTextModifier.BgColor color) self

/-- `impl Add for RichText` (src/main.rs:236-248): if the left operand is
a `Sequence`, push the right operand onto its vector; otherwise build a
new two-element `Sequence`. -/
def RichText.add : RichText → RichText → RichText
  | RichText.Sequence vec, rhs => RichText.Sequence (vec ++ [rhs])
  | lhs, rhs => RichText.Sequence [lhs, rhs]

/-- Discriminator for the `Sequence` constructor (the pattern split made
by the `match` in `impl Add`). -/
def RichText.isSeq : RichText → Bool
  | RichText.Sequence _ => true
  | _ => false

/-- The inner loop of `tiles_rec` on a `Text` leaf (src/main.rs:274-285):
starting from `ScreenTile::from_char`, each active modifier in stack
order (bottom first) overwrites its color field, so the last modifier of
each kind wins. -/
def applyModifiers (modifiers : List RichTextModifier) (tile : ScreenTile) : ScreenTile :=
  modifiers.foldl
    (fun tile modifier =>
      match modifier with
      | RichTextModifier.BgColor bg_color => { tile with bg_color := bg_color }
      | RichTextModifier.FgColor fg_color => { tile with fg_color := fg_color })
    tile

mutual

/-- `tiles_rec` (src/main.rs:263-301).  The Rust code threads a mutable
modifier stack: on a `Modifier` node it pushes, recurses, then pops.
Functionally the child is traversed with the stack extended on top
(`modifiers ++ [modifier]`) while siblings see the unextended stack. -/
def tiles_rec : RichText → List RichTextModifier → List ScreenTile
  | RichText.Text string, modifiers =>
      string.data.map (fun character => applyModifiers modifiers (ScreenTile.from_char character))
  | RichText.Modifier modifier sub, modifiers =>
      tiles_rec sub (modifiers ++ [modifier])
  | RichText.Sequence vec, modifiers =>
      tiles_list vec modifiers

/-- The `Sequence` arm of `tiles_rec` (src/main.rs:295-299): children in
list order, tiles concatenated. -/
def tiles_list : List RichText → List RichTextModifier → List ScreenTile
  | [], _ => []
  | sub :: rest, modifiers => tiles_rec sub modifiers ++ tiles_list rest modifiers

end

/-- `RichText::tiles` (src/main.rs:262-307): flatten with initially empty
modifier stack. -/
def RichText.tiles (self : RichText) : List ScreenTile :=
  tiles_rec self []

/-- The loop body sequence of `ScreenGrid::darw_text` (src/main.rs:311-316)
on an already-flattened tile list: write tile `i` of the list at
`(x + i, y)`.  A panicking write (out-of-range `tile_mut`) aborts the
whole operation, modelled by `none`. -/
def darw_go (grid : ScreenGrid) : List ScreenTile → Nat → Nat → Option ScreenGrid
  | [], _, _ => some grid
  | formatted_tile :: rest, x, y =>
      (grid.setTile (x, y) formatted_tile).bind (fun grid2 => darw_go grid2 rest (x + 1) y)

/-- `ScreenGrid::darw_text` (src/main.rs:311-316): flatten the rich text
and write the records left-to-right into row `dst_xy.1` starting at
column `dst_xy.0`. -/
def ScreenGrid.darw_text (grid : ScreenGrid) (text : RichText) (dst_xy : Nat × Nat) :
    Option ScreenGrid :=
  darw_go grid text.tiles dst_xy.1 dst_xy.2

/-! ### Draw-call traces

`ScreenGrid::draw_to_canvas` (src/main.rs:180-201) and
`CharSpriteSheet::draw_char_to_canvas` (src/main.rs:99-110) only issue
calls on the SDL canvas/texture; they are modelled as the list of calls
issued, in order. -/

/-- One renderer call made during drawing. -/
inductive DrawEvent where
  | setDrawColor (color : Color)
  | fillRect (dst : Rect)
  | setColorMod (r g b : Nat)
  | copy (src dst : Rect)
deriving DecidableEq, Repr

/-- `CharSpriteSheet::draw_char_to_canvas` (src/main.rs:99-110): set the
texture's RGB color modulation from the tint color, then copy the glyph's
source rectangle to `dst`. -/
def CharSpriteSheet.draw_char_events (sheet : CharSpriteSheet) (char_index : Nat)
    (color : Color) (dst : Rect) : List DrawEvent :=
  [DrawEvent.setColorMod color.r color.g color.b,
   DrawEvent.copy (sheet.char_index_to_rect char_index) dst]

/-- The loop body of `ScreenGrid::draw_to_canvas` for one cell
(src/main.rs:187-198): fill the destination rectangle with the cell's
background color, then draw the glyph tinted with its foreground color.
Inside the loop the cell is always in bounds for a well-formed grid, so
the `getD` default is never read there. -/
def ScreenGrid.cellDrawEvents (grid : ScreenGrid) (sheet : CharSpriteSheet)
    (xy : Nat × Nat) : List DrawEvent :=
  let dst := grid.grid_coords_to_rect xy
  let t := (grid.tile xy).getD ScreenTile.new
  DrawEvent.setDrawColor t.bg_color :: DrawEvent.fillRect dst ::
    sheet.draw_char_events t.sprite t.fg_color dst

/-- `ScreenGrid::draw_to_canvas` (src/main.rs:180-201): outer loop over
rows `y`, inner loop over columns `x`, emitting each cell's calls. -/
def ScreenGrid.draw_to_canvas_events (grid : ScreenGrid) (sheet : CharSpriteSheet) :
    List DrawEvent :=
  (List.range grid.grid_wh.2).flatMap (fun y =>
    (List.range grid.grid_wh.1).flatMap (fun x =>
      grid.cellDrawEvents sheet (x, y)))

/-! ### Spec-side definitions

The next definitions follow the specification's words, not the source;
they exist to be compared with the source-derived definitions above
(refinement or counting claims). -/

mutual

/-- Modelled from the spec: "total character count across all `Text`
leaves in the tree" (spec §4.4). -/
def charCount : RichText → Nat
  | RichText.Text string => string.length
  | RichText.Modifier _ sub => charCount sub
  | RichText.Sequence vec => charCountList vec

/-- Character count summed over a list of trees. -/
def charCountList : List RichText → Nat
  | [] => 0
  | sub :: rest => charCount sub + charCountList rest

end

mutual

/-- Modelled from the spec (§4.4): flattening where each emitted tile's
foreground/background is the innermost enclosing modifier of that kind
(the accumulating parameters `fg`, `bg`, overwritten on entering a
`Modifier` of the matching kind), the two kinds resolving independently,
and a modifier affecting only its own subtree. -/
def tilesSpec (fg bg : Color) : RichText → List ScreenTile
  | RichText.Text string =>
      string.data.map (fun character => ⟨character.toNat, fg, bg⟩)
  | RichText.Modifier (RichTextModifier.FgColor color) sub => tilesSpec color bg sub
  | RichText.Modifier (RichTextModifier.BgColor color) sub => tilesSpec fg color sub
  | RichText.Sequence vec => tilesSpecList fg bg vec

/-- `tilesSpec` over a list of children: every child sees the same
ambient colors (no leaking between siblings). -/
def tilesSpecList (fg bg : Color) : List RichText → List ScreenTile
  | [] => []
  | sub :: rest => tilesSpec fg bg sub ++ tilesSpecList fg bg rest

end

/-- The foreground color selected by a modifier stack: the last
`FgColor` pushed, or the ambient color `d` when none is present. -/
def foldFg (d : Color) (modifiers : List RichTextModifier) : Color :=
  modifiers.foldl
    (fun acc modifier =>
      match modifier with
      | RichTextModifier.FgColor color => color
      | RichTextModifier.BgColor _ => acc)
    d

/-- The background color selected by a modifier stack: the last
`BgColor` pushed, or the ambient color `d` when none is present. -/
def foldBg (d : Color) (modifiers : List RichTextModifier) : Color :=
  modifiers.foldl
    (fun acc modifier =>
      match modifier with
      | RichTextModifier.FgColor _ => acc
      | RichTextModifier.BgColor color => color)
    d

/-! ### Lemmas about flattening -/

/-- Applying a modifier stack to a tile rewrites exactly the two color
fields, each to the last modifier of its kind (or keeps the tile's own
color when the stack has none of that kind). -/
theorem applyModifiers_eq (modifiers : List RichTextModifier) (t : ScreenTile) :
    applyModifiers modifiers t =
      ⟨t.sprite, foldFg t.fg_color modifiers, foldBg t.bg_color modifiers⟩ := by
  induction modifiers generalizing t with
  | nil => rfl
  | cons m rest ih =>
      cases m with
      | FgColor color =>
          simp only [applyModifiers, foldFg, foldBg, List.foldl_cons] at ih ⊢
          exact ih { t with fg_color := color }
      | BgColor color =>
          simp only [applyModifiers, foldFg, foldBg, List.foldl_cons] at ih ⊢
          exact ih { t with bg_color := color }

theorem foldFg_append_fg (d : Color) (modifiers : List RichTextModifier) (color : Color) :
    foldFg d (modifiers ++ [RichTextModifier.FgColor color]) = color := by
  simp [foldFg, List.foldl_append]

theorem foldFg_append_bg (d : Color) (modifiers : List RichTextModifier) (color : Color) :
    foldFg d (modifiers ++ [RichTextModifier.BgColor color]) = foldFg d modifiers := by
  simp [foldFg, List.foldl_append]

theorem foldBg_append_bg (d : Color) (modifiers : List RichTextModifier) (color : Color) :
    foldBg d (modifiers ++ [RichTextModifier.BgColor color]) = color := by
  simp [foldBg, List.foldl_append]

theorem foldBg_append_fg (d : Color) (modifiers : List RichTextModifier) (color : Color) :
    foldBg d (modifiers ++ [RichTextModifier.FgColor color]) = foldBg d modifiers := by
  simp [foldBg, List.foldl_append]

mutual

/-- The source's stack-based flattening, run under an ambient modifier
stack, agrees with the spec-side innermost-wins flattening run with the
colors the stack resolves to. -/
theorem tiles_rec_spec : ∀ (t : RichText) (ms : List RichTextModifier),
    tiles_rec t ms = tilesSpec (foldFg COLOR_WHITE ms) (foldBg COLOR_BG ms) t
  | RichText.Text s, ms => by
      rw [tiles_rec, tilesSpec]
      have hfun : (fun character => applyModifiers ms (ScreenTile.from_char character)) =
          fun character : Char =>
            (⟨character.toNat, foldFg COLOR_WHITE ms, foldBg COLOR_BG ms⟩ : ScreenTile) := by
        funext character
        rw [applyModifiers_eq]
        rfl
      rw [hfun]
  | RichText.Modifier (RichTextModifier.FgColor color) sub, ms => by
      rw [tiles_rec, tilesSpec, tiles_rec_spec sub (ms ++ [RichTextModifier.FgColor color]),
        foldFg_append_fg, foldBg_append_fg]
  | RichText.Modifier (RichTextModifier.BgColor color) sub, ms => by
      rw [tiles_rec, tilesSpec, tiles_rec_spec sub (ms ++ [RichTextModifier.BgColor color]),
        foldFg_append_bg, foldBg_append_bg]
  | RichText.Sequence vec, ms => by
      rw [tiles_rec, tilesSpec, tiles_list_spec vec ms]

/-- List version of `tiles_rec_spec`. -/
theorem tiles_list_spec : ∀ (vec : List RichText) (ms : List RichTextModifier),
    tiles_list vec ms = tilesSpecList (foldFg COLOR_WHITE ms) (foldBg COLOR_BG ms) vec
  | [], _ => rfl
  | sub :: rest, ms => by
      rw [tiles_list, tilesSpecList, tiles_rec_spec sub ms, tiles_list_spec rest ms]

end

mutual

/-- The flattening emits exactly one tile per character of each `Text`
leaf, whatever the ambient modifier stack. -/
theorem tiles_rec_length : ∀ (t : RichText) (ms : List RichTextModifier),
    (tiles_rec t ms).length = charCount t
  | RichText.Text s, ms => by
      rw [tiles_rec, charCount, List.length_map]
      rfl
  | RichText.Modifier modifier sub, ms => by
      rw [tiles_rec, charCount, tiles_rec_length sub (ms ++ [modifier])]
  | RichText.Sequence vec, ms => by
      rw [tiles_rec, charCount, tiles_list_length vec ms]

/-- List version of `tiles_rec_length`. -/
theorem tiles_list_length : ∀ (vec : List RichText) (ms : List RichTextModifier),
    (tiles_list vec ms).length = charCountList vec
  | [], _ => rfl
  | sub :: rest, ms => by
      rw [tiles_list, charCountList, List.length_append, tiles_rec_length sub ms,
        tiles_list_length rest ms]

end

/-! ### Lemmas about grid writes -/

/-- A successful `tile_mut` write keeps the geometry and replaces exactly
the record at `tile_index xy`. -/
theorem setTile_eq_some {g g' : ScreenGrid} {xy : Nat × Nat} {t : ScreenTile}
    (h : g.setTile xy t = some g') :
    g'.grid_wh = g.grid_wh ∧ g'.tiles = g.tiles.set (g.tile_index xy) t ∧
    g'.tiles.length = g.tiles.length ∧ g.tile_index xy < g.tiles.length := by
  unfold ScreenGrid.setTile at h
  split at h
  case isTrue hlt =>
    cases h
    exact ⟨rfl, rfl, List.length_set g.tiles _ t, hlt⟩
  case isFalse hlt =>
    exact absurd h (by simp)

/-- A run of the `darw_text` loop keeps the geometry, keeps the storage
size, and never touches indices below its first write index. -/
theorem darw_go_preserve : ∀ (l : List ScreenTile) (g g' : ScreenGrid) (x y : Nat),
    darw_go g l x y = some g' →
    g'.grid_wh = g.grid_wh ∧ g'.tiles.length = g.tiles.length ∧
    ∀ k, k < x * g.grid_wh.2 + y → g'.tiles[k]? = g.tiles[k]?
  | [], g, g', x, y, h => by
      cases h
      exact ⟨rfl, rfl, fun k _ => rfl⟩
  | tl :: rest, g, g', x, y, h => by
      rw [darw_go] at h
      obtain ⟨g1, h1, h2⟩ := Option.bind_eq_some.mp h
      obtain ⟨hwh1, htiles1, hlen1, hlt1⟩ := setTile_eq_some h1
      obtain ⟨hwh2, hlen2, hpres2⟩ := darw_go_preserve rest g1 g' (x + 1) y h2
      refine ⟨hwh2.trans hwh1, by rw [hlen2, hlen1], fun k hk => ?_⟩
      have hH1 : g1.grid_wh.2 = g.grid_wh.2 := by rw [hwh1]
      have hk2 : k < (x + 1) * g1.grid_wh.2 + y := by
        rw [hH1, Nat.succ_mul]
        omega
      rw [hpres2 k hk2, htiles1]
      apply List.getElem?_set_ne
      have : g.tile_index (x, y) = x * g.grid_wh.2 + y := rfl
      omega

/-- A successful run of the `darw_text` loop stores the `i`-th record of
its list at cell `(x + i, y)`. -/
theorem darw_go_writes : ∀ (l : List ScreenTile) (g g' : ScreenGrid) (x y : Nat),
    0 < g.grid_wh.2 → darw_go g l x y = some g' →
    ∀ i, i < l.length → g'.tile (x + i, y) = l[i]?
  | [], _, _, _, _, _, _, i, hi => absurd hi (by simp)
  | tl :: rest, g, g', x, y, hpos, h, i, hi => by
      rw [darw_go] at h
      obtain ⟨g1, h1, h2⟩ := Option.bind_eq_some.mp h
      obtain ⟨hwh1, htiles1, hlen1, hlt1⟩ := setTile_eq_some h1
      cases i with
      | zero =>
          obtain ⟨hwh2, hlen2, hpres2⟩ := darw_go_preserve rest g1 g' (x + 1) y h2
          have hH1 : g1.grid_wh.2 = g.grid_wh.2 := by rw [hwh1]
          have hidx : g'.tile_index (x + 0, y) = x * g.grid_wh.2 + y := by
            show (x + 0) * g'.grid_wh.2 + y = x * g.grid_wh.2 + y
            rw [hwh2, hwh1]
            simp
          rw [ScreenGrid.tile, hidx]
          have hk : x * g.grid_wh.2 + y < (x + 1) * g1.grid_wh.2 + y := by
            rw [hH1, Nat.succ_mul]
            omega
          rw [hpres2 _ hk, htiles1]
          have hidx0 : g.tile_index (x, y) = x * g.grid_wh.2 + y := rfl
          rw [← hidx0]
          simpa using List.getElem?_set_eq_of_lt tl hlt1
      | succ n =>
          have hg1pos : 0 < g1.grid_wh.2 := by rw [hwh1]; exact hpos
          have hrec := darw_go_writes rest g1 g' (x + 1) y hg1pos h2 n (by simpa using hi)
          have harith : x + (n + 1) = (x + 1) + n := by omega
          rw [harith, hrec]
          simp

/-- The `darw_text` loop succeeds as soon as every written index is in
range. -/
theorem darw_go_total : ∀ (l : List ScreenTile) (g : ScreenGrid) (x y : Nat),
    (∀ i, i < l.length → (x + i) * g.grid_wh.2 + y < g.tiles.length) →
    ∃ g', darw_go g l x y = some g'
  | [], g, x, y, _ => ⟨g, rfl⟩
  | tl :: rest, g, x, y, hb => by
      have h0 : g.tile_index (x, y) < g.tiles.length := by
        have h := hb 0 (by simp)
        have hidx0 : g.tile_index (x, y) = (x + 0) * g.grid_wh.2 + y := rfl
        omega
      have hset : g.setTile (x, y) tl =
          some { g with tiles := g.tiles.set (g.tile_index (x, y)) tl } := by
        unfold ScreenGrid.setTile
        rw [if_pos h0]
      obtain ⟨g', hg'⟩ := darw_go_total rest
          { g with tiles := g.tiles.set (g.tile_index (x, y)) tl } (x + 1) y
          (fun i hi => by
            have h := hb (i + 1) (by simpa using hi)
            have harith : x + (i + 1) = (x + 1) + i := by omega
            simpa [List.length_set, ← harith] using h)
      refine ⟨g', ?_⟩
      rw [darw_go, hset]
      exact hg'

/-- Two positions inside one block of a `flatMap`, in order, survive as
two ordered positions of the whole `flatMap`. -/
theorem get_flatMap_pair {α β : Type} (l : List α) (f : α → List β) (a : α) (ha : a ∈ l)
    {p q : Nat} {e1 e2 : β} (hpq : p < q)
    (h1 : (f a)[p]? = some e1) (h2 : (f a)[q]? = some e2) :
    ∃ i j : Nat, i < j ∧ (l.flatMap f)[i]? = some e1 ∧ (l.flatMap f)[j]? = some e2 := by
  induction l with
  | nil => cases ha
  | cons b rest ih =>
      rcases List.mem_cons.mp ha with rfl | hmem
      · obtain ⟨hq, -⟩ := List.getElem?_eq_some.mp h2
        refine ⟨p, q, hpq, ?_, ?_⟩
        · rw [List.flatMap_cons, List.getElem?_append_left (by omega)]
          exact h1
        · rw [List.flatMap_cons, List.getElem?_append_left hq]
          exact h2
      · obtain ⟨i, j, hij, hi, hj⟩ := ih hmem
        refine ⟨(f b).length + i, (f b).length + j, by omega, ?_, ?_⟩
        · rw [List.flatMap_cons, List.getElem?_append_right (by omega),
            Nat.add_sub_cancel_left]
          exact hi
        · rw [List.flatMap_cons, List.getElem?_append_right (by omega),
            Nat.add_sub_cancel_left]
          exact hj

/-! ### Claim theorems -/

/-- C1: for every sprite sheet and glyph index `i`,
`char_index_to_rect i` is the rectangle with top-left
`((i mod grid_width) * tile_width, (i div grid_height) * tile_height)`
and size `tile_width × tile_height` (the row divisor is the grid height);
in particular on a square sheet with `grid_width = grid_height = N` and
`j < N * N` the top-left is `((j mod N) * tile_w, (j div N) * tile_h)`. -/
theorem char_index_to_rect_formula (sheet : CharSpriteSheet) (i : Nat)
    (N tw th j : Nat) (_hj : j < N * N) :
    sheet.char_index_to_rect i =
      ⟨(i % sheet.grid_wh.1) * sheet.tile_wh.1, (i / sheet.grid_wh.2) * sheet.tile_wh.2,
        sheet.tile_wh.1, sheet.tile_wh.2⟩ ∧
    (CharSpriteSheet.mk (N, N) (tw, th)).char_index_to_rect j =
      ⟨(j % N) * tw, (j / N) * th, tw, th⟩ :=
  ⟨rfl, rfl⟩

/-- Witness for C1 at the sheet of the shipped asset (`16 × 16` grid of
`8 × 8` tiles), glyph indices `97` and `255`. -/
theorem char_index_to_rect_formula_witness :
    255 < 16 * 16 ∧
    ((CharSpriteSheet.mk (16, 16) (8, 8)).char_index_to_rect 97 =
        ⟨(97 % 16) * 8, (97 / 16) * 8, 8, 8⟩ ∧
      (CharSpriteSheet.mk (16, 16) (8, 8)).char_index_to_rect 255 =
        ⟨(255 % 16) * 8, (255 / 16) * 8, 8, 8⟩) :=
  ⟨by decide, char_index_to_rect_formula ⟨(16, 16), (8, 8)⟩ 97 16 8 8 255 (by decide)⟩

/-- C5: `combine` (the `+` operator) flattens left-associated chains:
when `A` is not a `Sequence`, `(A + B) + C = Sequence [A, B, C]` (one
flat three-element sequence, not a nested one); in general a `Sequence`
left operand has the right operand appended, and a non-`Sequence` left
operand yields a fresh two-element sequence. -/
theorem add_combine_flattening (A B C lhs rhs : RichText) (vec : List RichText)
    (hA : A.isSeq = false) (hl : lhs.isSeq = false) :
    (A.add B).add C = RichText.Sequence [A, B, C] ∧
    (RichText.Sequence vec).add rhs = RichText.Sequence (vec ++ [rhs]) ∧
    lhs.add rhs = RichText.Sequence [lhs, rhs] := by
  refine ⟨?_, rfl, ?_⟩
  · cases A with
    | Text s => rfl
    | Modifier m c => rfl
    | Sequence v => simp [RichText.isSeq] at hA
  · cases lhs with
    | Text s => rfl
    | Modifier m c => rfl
    | Sequence v => simp [RichText.isSeq] at hl

/-- Witness for C5 on concrete `Text` leaves. -/
theorem add_combine_flattening_witness :
    ((RichText.Text "a").isSeq = false ∧ (RichText.Text "e").isSeq = false) ∧
    (((RichText.Text "a").add (RichText.Text "b")).add (RichText.Text "c") =
        RichText.Sequence [RichText.Text "a", RichText.Text "b", RichText.Text "c"] ∧
      (RichText.Sequence []).add (RichText.Text "d") =
        RichText.Sequence ([] ++ [RichText.Text "d"]) ∧
      (RichText.Text "e").add (RichText.Text "d") =
        RichText.Sequence [RichText.Text "e", RichText.Text "d"]) :=
  ⟨⟨rfl, rfl⟩,
    add_combine_flattening (RichText.Text "a") (RichText.Text "b") (RichText.Text "c")
      (RichText.Text "e") (RichText.Text "d") [] rfl rfl⟩

/-- C6: the sprite-sheet color key maps pure magenta `(255, 0, 255, a)`
and pure black `(0, 0, 0, a)` (any alpha `a`) to the fully transparent
color (alpha `0`), and leaves every other color unchanged; e.g.
`(12, 34, 56, 255)` is a fixed point. -/
theorem color_key_predicate_correct (a : Nat) (c : Color) (hc : ¬ isKeyColor c) :
    pink_and_black_to_transparent ⟨255, 0, 255, a⟩ = Color.RGBA 0 0 0 0 ∧
    pink_and_black_to_transparent ⟨0, 0, 0, a⟩ = Color.RGBA 0 0 0 0 ∧
    (pink_and_black_to_transparent ⟨255, 0, 255, a⟩).a = 0 ∧
    (pink_and_black_to_transparent ⟨0, 0, 0, a⟩).a = 0 ∧
    pink_and_black_to_transparent c = c ∧
    pink_and_black_to_transparent ⟨12, 34, 56, 255⟩ = ⟨12, 34, 56, 255⟩ := by
  have hmag : pink_and_black_to_transparent ⟨255, 0, 255, a⟩ = Color.RGBA 0 0 0 0 := by
    unfold pink_and_black_to_transparent
    exact if_pos (Or.inl ⟨rfl, rfl, rfl⟩)
  have hblack : pink_and_black_to_transparent ⟨0, 0, 0, a⟩ = Color.RGBA 0 0 0 0 := by
    unfold pink_and_black_to_transparent
    exact if_pos (Or.inr ⟨rfl, rfl, rfl⟩)
  have hother : pink_and_black_to_transparent c = c := by
    unfold pink_and_black_to_transparent
    unfold isKeyColor at hc
    exact if_neg hc
  exact ⟨hmag, hblack, by rw [hmag]; rfl, by rw [hblack]; rfl, hother, by decide⟩

/-- Witness for C6 at alpha `7` and the non-key color `(12, 34, 56, 255)`. -/
theorem color_key_predicate_correct_witness :
    ¬ isKeyColor ⟨12, 34, 56, 255⟩ ∧
    (pink_and_black_to_transparent ⟨255, 0, 255, 7⟩ = Color.RGBA 0 0 0 0 ∧
      pink_and_black_to_transparent ⟨0, 0, 0, 7⟩ = Color.RGBA 0 0 0 0 ∧
      (pink_and_black_to_transparent ⟨255, 0, 255, 7⟩).a = 0 ∧
      (pink_and_black_to_transparent ⟨0, 0, 0, 7⟩).a = 0 ∧
      pink_and_black_to_transparent ⟨12, 34, 56, 255⟩ = ⟨12, 34, 56, 255⟩ ∧
      pink_and_black_to_transparent ⟨12, 34, 56, 255⟩ = ⟨12, 34, 56, 255⟩) :=
  ⟨by decide, color_key_predicate_correct 7 ⟨12, 34, 56, 255⟩ (by decide)⟩

/-- C7: the color-key transform is idempotent: `predicate (predicate c)
= predicate c` for every color, hence transforming a whole surface a
second time changes no pixel. -/
theorem color_key_idempotent :
    (∀ c, pink_and_black_to_transparent (pink_and_black_to_transparent c) =
        pink_and_black_to_transparent c) ∧
    (∀ surface, map_surface_pixels (map_surface_pixels surface pink_and_black_to_transparent)
        pink_and_black_to_transparent = map_surface_pixels surface pink_and_black_to_transparent) := by
  have h : ∀ c, pink_and_black_to_transparent (pink_and_black_to_transparent c) =
      pink_and_black_to_transparent c := by
    intro c
    by_cases hc : isKeyColor c
    · have h1 : pink_and_black_to_transparent c = Color.RGBA 0 0 0 0 := by
        unfold pink_and_black_to_transparent
        unfold isKeyColor at hc
        exact if_pos hc
      rw [h1]
      decide
    · have h1 : pink_and_black_to_transparent c = c := by
        unfold pink_and_black_to_transparent
        unfold isKeyColor at hc
        exact if_neg hc
      rw [h1]
      exact h1
  refine ⟨h, fun surface => ?_⟩
  induction surface with
  | nil => rfl
  | cons p rest ih =>
      simp only [map_surface_pixels, List.map_cons] at ih ⊢
      rw [h p, ih]

/-- The rich text of the end-to-end scenario:
`RichText::from("ab").fg_color(Color::RGB(240,40,5))
  + RichText::from("cd").bg_color(Color::RGB(10,40,150))`. -/
def endToEndText : RichText :=
  ((RichText.fromString "ab").fg_color (Color.RGB 240 40 5)).add
    ((RichText.fromString "cd").bg_color (Color.RGB 10 40 150))

/-- C2: writing the combined rich text
`from("ab").with_foreground((240,40,5)) + from("cd").with_background((10,40,150))`
at `(1, 2)` into a freshly constructed grid (any size with room for the
four records in row `2`) sets cells `(1,2)…(4,2)` to glyphs
`'a','b','c','d'` with the claimed colors and the defaults elsewhere in
the record; and in general a successful `darw_text` stores the `i`-th
record of the flattened sequence at cell `(dest_x + i, dest_y)`. -/
theorem darw_text_end_to_end (W H : Nat) (twh : Nat × Nat) (hW : 4 < W) (hH : 2 < H) :
    (∃ g', (ScreenGrid.new (W, H) twh).darw_text endToEndText (1, 2) = some g' ∧
      g'.tile (1, 2) = some ⟨97, Color.RGB 240 40 5, COLOR_BG⟩ ∧
      g'.tile (2, 2) = some ⟨98, Color.RGB 240 40 5, COLOR_BG⟩ ∧
      g'.tile (3, 2) = some ⟨99, COLOR_WHITE, Color.RGB 10 40 150⟩ ∧
      g'.tile (4, 2) = some ⟨100, COLOR_WHITE, Color.RGB 10 40 150⟩) ∧
    (∀ (g g' : ScreenGrid) (text : RichText) (dst : Nat × Nat),
      0 < g.grid_wh.2 → g.darw_text text dst = some g' →
      ∀ i, i < text.tiles.length → g'.tile (dst.1 + i, dst.2) = text.tiles[i]?) := by
  constructor
  · have htiles : endToEndText.tiles =
        [⟨97, Color.RGB 240 40 5, COLOR_BG⟩, ⟨98, Color.RGB 240 40 5, COLOR_BG⟩,
         ⟨99, COLOR_WHITE, Color.RGB 10 40 150⟩, ⟨100, COLOR_WHITE, Color.RGB 10 40 150⟩] := by
      decide
    set g0 := ScreenGrid.new (W, H) twh with hg0
    have hg0len : g0.tiles.length = W * H := by
      show (List.replicate (W * H) ScreenTile.new).length = W * H
      exact List.length_replicate _ _
    have hg0H : g0.grid_wh.2 = H := rfl
    have hbound : ∀ i, i < endToEndText.tiles.length →
        (1 + i) * g0.grid_wh.2 + 2 < g0.tiles.length := by
      intro i hi
      have hi4 : i < 4 := by
        rw [htiles] at hi
        simpa using hi
      have h1 : (1 + i) * H ≤ 4 * H := Nat.mul_le_mul_right H (by omega)
      have h5 : 5 * H ≤ W * H := Nat.mul_le_mul_right H (by omega)
      rw [hg0H, hg0len]
      omega
    obtain ⟨g', hg'⟩ := darw_go_total endToEndText.tiles g0 1 2 hbound
    have hpos : 0 < g0.grid_wh.2 := by
      rw [hg0H]
      omega
    have hw := darw_go_writes endToEndText.tiles g0 g' 1 2 hpos hg'
    refine ⟨g', hg', ?_, ?_, ?_, ?_⟩
    · have h := hw 0 (by rw [htiles]; simp)
      rw [htiles] at h
      simpa using h
    · have h := hw 1 (by rw [htiles]; simp)
      rw [htiles] at h
      simpa using h
    · have h := hw 2 (by rw [htiles]; simp)
      rw [htiles] at h
      simpa using h
    · have h := hw 3 (by rw [htiles]; simp)
      rw [htiles] at h
      simpa using h
  · intro g g' text dst hpos hd i hi
    exact darw_go_writes text.tiles g g' dst.1 dst.2 hpos hd i hi

/-- Witness for C2 at the program's own grid size `30 × 30`. -/
theorem darw_text_end_to_end_witness :
    4 < 30 ∧ 2 < 30 ∧
    (∃ g', (ScreenGrid.new (30, 30) (16, 16)).darw_text endToEndText (1, 2) = some g' ∧
      g'.tile (1, 2) = some ⟨97, Color.RGB 240 40 5, COLOR_BG⟩ ∧
      g'.tile (2, 2) = some ⟨98, Color.RGB 240 40 5, COLOR_BG⟩ ∧
      g'.tile (3, 2) = some ⟨99, COLOR_WHITE, Color.RGB 10 40 150⟩ ∧
      g'.tile (4, 2) = some ⟨100, COLOR_WHITE, Color.RGB 10 40 150⟩) :=
  ⟨by decide, by decide, (darw_text_end_to_end 30 30 (16, 16) (by decide) (by decide)).1⟩

/-- C3: the tiles emitted for a `Text` leaf carry as foreground the
innermost enclosing `FgColor` modifier and as background the innermost
enclosing `BgColor` modifier, the two kinds resolving independently and
defaulting to `COLOR_WHITE` / `COLOR_BG`, and a modifier affects only
its own subtree: the stack-based `tiles()` equals the spec-side
flattening `tilesSpec`, which threads the innermost colors of each kind
downward only. -/
theorem tiles_innermost_modifier_scoping (t : RichText) :
    t.tiles = tilesSpec COLOR_WHITE COLOR_BG t := by
  rw [RichText.tiles, tiles_rec_spec t []]
  rfl

/-- C4: for every rich-text tree (empty literals and arbitrarily deep
nesting included), `tiles()` has exactly as many records as the total
character count over all `Text` leaves. -/
theorem tiles_length_invariant (t : RichText) :
    t.tiles.length = charCount t :=
  tiles_rec_length t []

/-- C8: the grid's linear index of cell `(x, y)` is
`x * grid_height + y` (`grid_wh.2` is the grid height), and `tile` and
the `tile_mut`-based write both address storage through exactly this
index. -/
theorem tile_index_formula_consistent (grid : ScreenGrid) (x y : Nat) (t : ScreenTile) :
    grid.tile_index (x, y) = x * grid.grid_wh.2 + y ∧
    grid.tile (x, y) = grid.tiles[grid.tile_index (x, y)]? ∧
    grid.setTile (x, y) t =
      (if grid.tile_index (x, y) < grid.tiles.length then
        some { grid with tiles := grid.tiles.set (grid.tile_index (x, y)) t }
      else none) :=
  ⟨rfl, rfl, rfl⟩

/-- C9: within the draw trace of `draw_to_canvas`, for every in-range
cell the background `fill_rect` call appears at a strictly smaller
position than the tinted `copy` call of that same cell's glyph. -/
theorem draw_order_bg_before_glyph (grid : ScreenGrid) (sheet : CharSpriteSheet)
    (x y : Nat) (hx : x < grid.grid_wh.1) (hy : y < grid.grid_wh.2) :
    ∃ i j : Nat, i < j ∧
      (grid.draw_to_canvas_events sheet)[i]? =
        some (DrawEvent.fillRect (grid.grid_coords_to_rect (x, y))) ∧
      (grid.draw_to_canvas_events sheet)[j]? =
        some (DrawEvent.copy
          (sheet.char_index_to_rect ((grid.tile (x, y)).getD ScreenTile.new).sprite)
          (grid.grid_coords_to_rect (x, y))) := by
  have hcell1 : (grid.cellDrawEvents sheet (x, y))[1]? =
      some (DrawEvent.fillRect (grid.grid_coords_to_rect (x, y))) := rfl
  have hcell3 : (grid.cellDrawEvents sheet (x, y))[3]? =
      some (DrawEvent.copy
        (sheet.char_index_to_rect ((grid.tile (x, y)).getD ScreenTile.new).sprite)
        (grid.grid_coords_to_rect (x, y))) := rfl
  obtain ⟨p, q, hpq, hp, hq⟩ := get_flatMap_pair (List.range grid.grid_wh.1)
      (fun xc => grid.cellDrawEvents sheet (xc, y)) x (List.mem_range.mpr hx)
      (by omega : (1 : Nat) < 3) hcell1 hcell3
  obtain ⟨i, j, hij, hi, hj⟩ := get_flatMap_pair (List.range grid.grid_wh.2)
      (fun yc => (List.range grid.grid_wh.1).flatMap
        (fun xc => grid.cellDrawEvents sheet (xc, yc)))
      y (List.mem_range.mpr hy) hpq hp hq
  exact ⟨i, j, hij, hi, hj⟩

/-- Witness for C9 on a `2 × 2` grid, cell `(1, 0)`. -/
theorem draw_order_bg_before_glyph_witness :
    (1 < (ScreenGrid.new (2, 2) (8, 8)).grid_wh.1 ∧
      0 < (ScreenGrid.new (2, 2) (8, 8)).grid_wh.2) ∧
    ∃ i j : Nat, i < j ∧
      ((ScreenGrid.new (2, 2) (8, 8)).draw_to_canvas_events ⟨(16, 16), (8, 8)⟩)[i]? =
        some (DrawEvent.fillRect ((ScreenGrid.new (2, 2) (8, 8)).grid_coords_to_rect (1, 0))) ∧
      ((ScreenGrid.new (2, 2) (8, 8)).draw_to_canvas_events ⟨(16, 16), (8, 8)⟩)[j]? =
        some (DrawEvent.copy
          ((⟨(16, 16), (8, 8)⟩ : CharSpriteSheet).char_index_to_rect
            (((ScreenGrid.new (2, 2) (8, 8)).tile (1, 0)).getD ScreenTile.new).sprite)
          ((ScreenGrid.new (2, 2) (8, 8)).grid_coords_to_rect (1, 0))) :=
  ⟨⟨by decide, by decide⟩,
    draw_order_bg_before_glyph (ScreenGrid.new (2, 2) (8, 8)) ⟨(16, 16), (8, 8)⟩ 1 0
      (by decide) (by decide)⟩

/-- C10: because the linear index is `x * grid_height + y`, a coordinate
with `y ≥ grid_height` whose index still lands below `W * H` is not
rejected: `tile` succeeds and returns the record of the distinct
in-bounds cell `((x*H+y) / H, (x*H+y) % H)`, and the `tile_mut` write
overwrites that same aliased cell instead of failing.  `darw_text`
writes through the same `tile_mut` path, so a row overflow aliases in
the same way. -/
theorem tile_out_of_range_aliasing (g : ScreenGrid) (W H x y : Nat) (t : ScreenTile)
    (hwh : g.grid_wh = (W, H)) (hlen : g.tiles.length = W * H)
    (hy : H ≤ y) (hidx : x * H + y < W * H) :
    ((x * H + y) / H, (x * H + y) % H) ≠ (x, y) ∧
    (x * H + y) / H < W ∧ (x * H + y) % H < H ∧
    (∃ r, g.tile (x, y) = some r) ∧
    g.tile (x, y) = g.tile ((x * H + y) / H, (x * H + y) % H) ∧
    g.setTile (x, y) t = some { g with tiles := g.tiles.set (x * H + y) t } ∧
    g.setTile (x, y) t = g.setTile ((x * H + y) / H, (x * H + y) % H) t := by
  have hH : 0 < H := by
    rcases Nat.eq_zero_or_pos H with h0 | h
    · subst h0
      omega
    · exact h
  have key : (x * H + y) / H * H + (x * H + y) % H = x * H + y := by
    rw [Nat.mul_comm]
    exact Nat.div_add_mod (x * H + y) H
  have hmod : (x * H + y) % H < H := Nat.mod_lt _ hH
  have hdiv : (x * H + y) / H < W := (Nat.div_lt_iff_lt_mul hH).mpr hidx
  have hidxa : g.tile_index (x, y) = x * H + y := by
    show x * g.grid_wh.2 + y = x * H + y
    rw [hwh]
  have hidxb : g.tile_index ((x * H + y) / H, (x * H + y) % H) = x * H + y := by
    show (x * H + y) / H * g.grid_wh.2 + (x * H + y) % H = x * H + y
    rw [hwh]
    exact key
  have hlt : g.tile_index (x, y) < g.tiles.length := by
    rw [hidxa, hlen]
    exact hidx
  refine ⟨?_, hdiv, hmod, ?_, ?_, ?_, ?_⟩
  · intro he
    have h2 : (x * H + y) % H = y := congrArg Prod.snd he
    omega
  · exact ⟨_, by rw [ScreenGrid.tile]; exact List.getElem?_eq_getElem hlt⟩
  · show g.tiles[g.tile_index (x, y)]? = g.tiles[g.tile_index ((x * H + y) / H, (x * H + y) % H)]?
    rw [hidxa, hidxb]
  · unfold ScreenGrid.setTile
    rw [if_pos hlt, hidxa]
  · unfold ScreenGrid.setTile
    rw [hidxa, hidxb]

/-- Witness for C10 on a fresh `3 × 2` grid at the out-of-range
coordinate `(0, 2)`, which aliases cell `(1, 0)`. -/
theorem tile_out_of_range_aliasing_witness :
    ((ScreenGrid.new (3, 2) (8, 8)).grid_wh = (3, 2) ∧
      (ScreenGrid.new (3, 2) (8, 8)).tiles.length = 3 * 2 ∧ 2 ≤ 2 ∧ 0 * 2 + 2 < 3 * 2) ∧
    (((0 * 2 + 2) / 2, (0 * 2 + 2) % 2) ≠ (0, 2) ∧
      (0 * 2 + 2) / 2 < 3 ∧ (0 * 2 + 2) % 2 < 2 ∧
      (∃ r, (ScreenGrid.new (3, 2) (8, 8)).tile (0, 2) = some r) ∧
      (ScreenGrid.new (3, 2) (8, 8)).tile (0, 2) =
        (ScreenGrid.new (3, 2) (8, 8)).tile ((0 * 2 + 2) / 2, (0 * 2 + 2) % 2) ∧
      (ScreenGrid.new (3, 2) (8, 8)).setTile (0, 2) (ScreenTile.from_char 'z') =
        some { ScreenGrid.new (3, 2) (8, 8) with
          tiles := (ScreenGrid.new (3, 2) (8, 8)).tiles.set (0 * 2 + 2)
            (ScreenTile.from_char 'z') } ∧
      (ScreenGrid.new (3, 2) (8, 8)).setTile (0, 2) (ScreenTile.from_char 'z') =
        (ScreenGrid.new (3, 2) (8, 8)).setTile ((0 * 2 + 2) / 2, (0 * 2 + 2) % 2)
          (ScreenTile.from_char 'z')) :=
  ⟨⟨rfl, rfl, by decide, by decide⟩,
    tile_out_of_range_aliasing (ScreenGrid.new (3, 2) (8, 8)) 3 2 0 2
      (ScreenTile.from_char 'z') rfl rfl (by decide) (by decide)⟩

end WhyCrystals
